import Mathlib

/-!
Verification development for the cue-sheet validator `cuecheck.py`.

The program is embedded shallowly: Python strings become `List Char`,
the command grammar table becomes total functions on a closed `Key`
enumeration, the regular expressions of the grammar are compiled by hand
into deterministic matchers (each regex here is deterministic after the
greedy/backtracking analysis recorded in comments), Python floats holding
`minutes*60 + seconds + frames/75` become rationals, and the `-1` and
empty-string "unset" sentinels are kept as such.  The filesystem, the
file-extension test, file existence and decodability are abstracted as
boolean parameters, mirroring the collaborator boundary of the program.

Trees built by the classifier are at most three levels deep below the
root (indentation is always 0, 2 or 4 after coercion, and the three
"open ancestor" pointers are the root, the last FILE node and the last
TRACK node), so the node tree is embedded as that bounded shape and the
generic pre-order recursions of the validators are specialised to it.
-/

namespace Cue

/-- Python `\s` for the ASCII range (the documents are ASCII cue sheets). -/
def isPySpace (c : Char) : Bool :=
  c = ' ' || c = '\t' || c = '\n' || c = '\r' || c = '\x0b' || c = '\x0c'

/-- `getSpace` from the source: count of leading `' '` characters
(the loop increments until the first non-space character). -/
def getSpace : List Char → Nat
  | [] => 0
  | c :: t => if c = ' ' then getSpace t + 1 else 0

/-- Helper for `pySplit`: `acc` is the current token, reversed. -/
def pySplitAux : List Char → List Char → List (List Char)
  | [], acc => if acc = [] then [] else [acc.reverse]
  | c :: rest, acc =>
    if isPySpace c then
      if acc = [] then pySplitAux rest [] else acc.reverse :: pySplitAux rest []
    else
      pySplitAux rest (c :: acc)

/-- Python `str.split()`: split on runs of whitespace, dropping empties. -/
def pySplit (l : List Char) : List (List Char) := pySplitAux l []

/-- Python `str.isupper()` for the ASCII range: at least one cased
character and no lower-case cased character. -/
def pyIsUpper (l : List Char) : Bool :=
  l.any (fun c => c.isAlpha) && l.all (fun c => !c.isLower)

/-- Python `str.upper()` for the ASCII range. -/
def pyToUpper (l : List Char) : List Char := l.map Char.toUpper

/-- Python `.replace('"', '')`. -/
def stripQuotes (l : List Char) : List Char := l.filter (fun c => c ≠ '"')

/-- Python `' '.join(tokens)`. -/
def joinSpace (ts : List (List Char)) : List Char := List.intercalate [' '] ts

/-- First whitespace-delimited token of a line (`line.split()[0]`),
`[]` when the line is blank. -/
def firstTok (l : List Char) : List Char := (pySplit l).getD 0 []

/-- Two-digit group to a number, e.g. `int(m.group(1))`. -/
def twoDigits (a b : Char) : Nat := (a.toNat - 48) * 10 + (b.toNat - 48)

/-- The closed enumeration of command keywords of the grammar registry. -/
inductive Key where
  | CATALOG | CDTEXTFILE | TITLE | PERFORMER | SONGWRITER
  | FILE | TRACK | FLAGS | ISRC | PREGAP | INDEX | POSTGAP | REM
  deriving DecidableEq, Repr

/-- The keyword as written in the registry. -/
def keyStr : Key → String
  | .CATALOG => "CATALOG"
  | .CDTEXTFILE => "CDTEXTFILE"
  | .TITLE => "TITLE"
  | .PERFORMER => "PERFORMER"
  | .SONGWRITER => "SONGWRITER"
  | .FILE => "FILE"
  | .TRACK => "TRACK"
  | .FLAGS => "FLAGS"
  | .ISRC => "ISRC"
  | .PREGAP => "PREGAP"
  | .INDEX => "INDEX"
  | .POSTGAP => "POSTGAP"
  | .REM => "REM"

/-- `commands.keys()` membership: the upper-cased first token is looked
up in the registry. -/
def keyOfTok (t : List Char) : Option Key :=
  if t = "CATALOG".data then some .CATALOG
  else if t = "CDTEXTFILE".data then some .CDTEXTFILE
  else if t = "TITLE".data then some .TITLE
  else if t = "PERFORMER".data then some .PERFORMER
  else if t = "SONGWRITER".data then some .SONGWRITER
  else if t = "FILE".data then some .FILE
  else if t = "TRACK".data then some .TRACK
  else if t = "FLAGS".data then some .FLAGS
  else if t = "ISRC".data then some .ISRC
  else if t = "PREGAP".data then some .PREGAP
  else if t = "INDEX".data then some .INDEX
  else if t = "POSTGAP".data then some .POSTGAP
  else if t = "REM".data then some .REM
  else none

/-- The `'indent'` tuples of the registry. -/
def indentsOf : Key → List Nat
  | .CATALOG => [0]
  | .CDTEXTFILE => [0]
  | .TITLE => [0, 4]
  | .PERFORMER => [0, 4]
  | .SONGWRITER => [0, 4]
  | .FILE => [0]
  | .TRACK => [2]
  | .FLAGS => [4]
  | .ISRC => [4]
  | .PREGAP => [4]
  | .INDEX => [4]
  | .POSTGAP => [4]
  | .REM => [0]

/-- The `'multiple'` flags of the registry. -/
def multipleOf : Key → Bool
  | .FILE => true
  | .TRACK => true
  | .INDEX => true
  | .REM => true
  | _ => false

/-- The `'children'` tuples of the registry; `none` is the literal
`None` entry of the tuples. -/
def childrenOf : Key → List (Option Key)
  | .FILE => [some .TRACK]
  | .TRACK => [some .FLAGS, some .ISRC, some .TITLE, some .PERFORMER,
      some .SONGWRITER, some .PREGAP, some .INDEX, some .POSTGAP]
  | _ => [none]

/-- The `'position'` table: `(after, before)` for a keyword under a
declaring parent keyword (`none` = the document root).  Combinations the
source never looks up are mapped to `([], [])`. -/
def positionOf : Key → Option Key → List Key × List Key
  | .CATALOG, none => ([], [.CDTEXTFILE, .TITLE, .PERFORMER, .SONGWRITER, .FILE])
  | .CDTEXTFILE, none => ([.CATALOG], [.TITLE, .PERFORMER, .SONGWRITER, .FILE])
  | .TITLE, none => ([.CATALOG, .CDTEXTFILE], [.FILE])
  | .TITLE, some .TRACK => ([], [.INDEX])
  | .PERFORMER, none => ([.CATALOG, .CDTEXTFILE], [.FILE])
  | .PERFORMER, some .TRACK => ([], [.INDEX])
  | .SONGWRITER, none => ([.CATALOG, .CDTEXTFILE], [.FILE])
  | .SONGWRITER, some .TRACK => ([], [.INDEX])
  | .FILE, none => ([.CATALOG, .CDTEXTFILE], [])
  | .TRACK, some .FILE => ([], [])
  | .FLAGS, some .TRACK => ([], [.INDEX])
  | .ISRC, some .TRACK => ([], [.INDEX])
  | .PREGAP, some .TRACK => ([], [.INDEX])
  | .INDEX, some .TRACK =>
      ([.FLAGS, .ISRC, .TITLE, .PERFORMER, .SONGWRITER, .PREGAP], [.POSTGAP])
  | .POSTGAP, some .TRACK => ([.INDEX], [])
  | .REM, none => ([], [])
  | _, _ => ([], [])

/-- Captured groups of a successful `re.match` of a command's `'syntax'`
rule, specialised per command shape. -/
inductive MData where
  | plainOk : MData
  | catalogG (g1 : List Char) : MData
  | textG (g2 : List Char) : MData
  | fileG (g2 : List Char) (typ : List Char) : MData
  | trackG (n : Nat) (typ : List Char) : MData
  | isrcG (g1 : List Char) : MData
  | gapG (m s f : Nat) : MData
  | indexG (n : Nat) (m s f : Nat) : MData
  deriving DecidableEq, Repr

/-- Strip an exact prefix, returning the remainder. -/
def stripPref : List Char → List Char → Option (List Char)
  | [], l => some l
  | _ :: _, [] => none
  | p :: ps, c :: cs => if p = c then stripPref ps cs else none

/-- A character of the class `[^\s|"]` (bare, unquoted text). -/
def bareChar (c : Char) : Bool := !isPySpace c && c ≠ '|' && c ≠ '"'

/-- `(")?((?(1)[^"]|[^\s|"])+)(?(1)")` when it must reach the end of the
line: either a non-empty quote-free text between two quotes, or a
non-empty run of bare characters.  Returns group 2. -/
def quotedOrBareAll (t : List Char) : Option (List Char) :=
  match t with
  | '"' :: u =>
    let x := u.takeWhile (fun c => c ≠ '"')
    if x ≠ [] && u.drop x.length = ['"'] then some x else none
  | _ => if t ≠ [] && t.all bareChar then some t else none

/-- The `FILE` type codes. -/
def fileTypes : List (List Char) :=
  ["BINARY".data, "MOTOROLA".data, "AIFF".data, "WAVE".data, "MP3".data]

/-- The `TRACK` mode codes. -/
def trackTypes : List (List Char) :=
  ["AUDIO".data, "CDG".data, "MODE1/2048".data, "MODE1/2352".data,
   "MODE2/2048".data, "MODE2/2324".data, "MODE2/2336".data,
   "MODE2/2352".data, "CDI/2336".data, "CDI/2352".data]

/-- Body of the `FILE` rule after the keyword and its following space:
`(")?((?(1)[^"]|[^\s|"])+)(?(1)") (BINARY|MOTOROLA|AIFF|WAVE|MP3)$`.
In the quoted branch `[^"]+` cannot cross a quote, so the closing quote
is the first quote after the opening one; in the bare branch the token
is the maximal run of bare characters. -/
def matchFileBody : List Char → Option MData
  | '"' :: u =>
    let x := u.takeWhile (fun c => c ≠ '"')
    (match u.drop x.length with
     | '"' :: ' ' :: ty =>
       if x ≠ [] && fileTypes.contains ty then some (.fileG x ty) else none
     | _ => none)
  | t =>
    let x := t.takeWhile bareChar
    (match t.drop x.length with
     | ' ' :: ty =>
       if x ≠ [] && fileTypes.contains ty then some (.fileG x ty) else none
     | _ => none)

/-- `( (DCP|4CH|PRE|SCMS))` repetitions of the `FLAGS` rule.  No flag is
a prefix of another, so matching is deterministic. -/
def matchFlagsRun : List Char → Bool
  | ' ' :: 'D' :: 'C' :: 'P' :: r => r = [] || matchFlagsRun r
  | ' ' :: '4' :: 'C' :: 'H' :: r => r = [] || matchFlagsRun r
  | ' ' :: 'P' :: 'R' :: 'E' :: r => r = [] || matchFlagsRun r
  | ' ' :: 'S' :: 'C' :: 'M' :: 'S' :: r => r = [] || matchFlagsRun r
  | _ => false

/-- The first flag of the `FLAGS` rule (its leading space has already
been consumed with the keyword), then further `' ' flag` repetitions. -/
def matchFlagsFirst : List Char → Bool
  | 'D' :: 'C' :: 'P' :: r => r = [] || matchFlagsRun r
  | '4' :: 'C' :: 'H' :: r => r = [] || matchFlagsRun r
  | 'P' :: 'R' :: 'E' :: r => r = [] || matchFlagsRun r
  | 'S' :: 'C' :: 'M' :: 'S' :: r => r = [] || matchFlagsRun r
  | _ => false

/-- A character of the class `[0-9A-Z]`. -/
def isrcChar (c : Char) : Bool := c.isDigit || c.isUpper

/-- Body of a command's rule.  Every rule in the registry continues with
a single literal space right after the keyword; `matchCmd` consumes it
together with the keyword, and this is the rest of the rule. -/
def matchBody : Key → List Char → Option MData
  | .CATALOG, t =>
    if t.length = 13 && t.all Char.isDigit then some (.catalogG t) else none
  | .CDTEXTFILE, t =>
    (quotedOrBareAll t).map (fun _ => .plainOk)
  | .TITLE, t => (quotedOrBareAll t).map .textG
  | .PERFORMER, t => (quotedOrBareAll t).map .textG
  | .SONGWRITER, t => (quotedOrBareAll t).map .textG
  | .FILE, t => matchFileBody t
  | .TRACK, a :: b :: ' ' :: ty =>
    if a.isDigit && b.isDigit && trackTypes.contains ty then
      some (.trackG (twoDigits a b) ty)
    else none
  | .FLAGS, t => if matchFlagsFirst t then some .plainOk else none
  | .ISRC, t =>
    if t.length = 12 && (t.take 5).all isrcChar && (t.drop 5).all Char.isDigit
    then some (.isrcG t) else none
  | .PREGAP, m1 :: m2 :: ':' :: s1 :: s2 :: ':' :: f1 :: f2 :: [] =>
    if [m1, m2, s1, s2, f1, f2].all Char.isDigit then
      some (.gapG (twoDigits m1 m2) (twoDigits s1 s2) (twoDigits f1 f2))
    else none
  | .POSTGAP, m1 :: m2 :: ':' :: s1 :: s2 :: ':' :: f1 :: f2 :: [] =>
    if [m1, m2, s1, s2, f1, f2].all Char.isDigit then
      some (.gapG (twoDigits m1 m2) (twoDigits s1 s2) (twoDigits f1 f2))
    else none
  | .INDEX, n1 :: n2 :: ' ' :: m1 :: m2 :: ':' :: s1 :: s2 :: ':' :: f1 :: f2 :: [] =>
    if [n1, n2, m1, m2, s1, s2, f1, f2].all Char.isDigit then
      some (.indexG (twoDigits n1 n2) (twoDigits m1 m2) (twoDigits s1 s2)
        (twoDigits f1 f2))
    else none
  | .REM, t =>
    if t ≠ [] && t.all (fun c => c ≠ '\n') then some .plainOk else none
  | _, _ => none

/-- `re.match(' ' * cmd.indent + commands[cmd.key]['syntax'], cmd.line)`:
the coerced indent as literal spaces, the keyword literal with the
single space every rule puts right after it, then the rest of the
per-command rule, anchored at the start of the line. -/
def matchCmd (k : Key) (indent : Nat) (l : List Char) : Option MData :=
  match stripPref (List.replicate indent ' ' ++ (keyStr k).data ++ [' ']) l with
  | none => none
  | some rest => matchBody k rest

/-- Keyword-specific extracted fields of a node, each defaulting to the
"unset" sentinel exactly as in `CMD.__getattr__`. -/
structure Fields where
  content : String := ""
  file : String := ""
  type : String := ""
  tag : String := ""
  number : Int := -1
  time : ℚ := -1
  deriving DecidableEq, Repr

/-- A command node without its children (`CMD` minus the tree links). -/
structure Node where
  linenum : Nat
  key : Option Key
  line : String
  indent : Nat
  fields : Fields
  deriving DecidableEq, Repr

instance : Inhabited Node := ⟨⟨0, none, "", 0, {}⟩⟩

/-- A track-level node with its leaf children (depth-4 nodes attach to
the most recent TRACK node, and depth-4 nodes get no children). -/
structure TrackT where
  node : Node
  children : List Node
  deriving DecidableEq, Repr

/-- A document-level node with its track children (only depth-2 nodes,
i.e. TRACK nodes, attach below a document-level node). -/
structure TopT where
  node : Node
  children : List TrackT
  deriving DecidableEq, Repr

/-- Pre-order node list of the subtree of a track-level node,
including the node itself (as `getCmds` enumerates it). -/
def subtreeTr (t : TrackT) : List Node := t.node :: t.children

/-- Pre-order node list of the subtree of a document-level node. -/
def subtreeTop (f : TopT) : List Node := f.node :: f.children.flatMap subtreeTr

/-- Pre-order node list of the whole forest under the root, i.e.
`getCmds(root, k)` before filtering. -/
def forestNodes (forest : List TopT) : List Node := forest.flatMap subtreeTop

/-- A diagnostic record (`cueSyntaxError`): line number, verbatim line,
ordered list of messages.  In the source two records compare equal iff
their line numbers match. -/
structure cueSyntaxError where
  line_num : Nat
  line : String
  message : List String
  deriving DecidableEq, Repr

/-- Sorted insertion by line number, the building block of the model of
`list.sort()` (stable ascending sort under `__lt__`). -/
def insRec (r : cueSyntaxError) : List cueSyntaxError → List cueSyntaxError
  | [] => [r]
  | x :: xs => if r.line_num < x.line_num then r :: x :: xs else x :: insRec r xs

/-- Model of Python `list.sort()` on diagnostic records (insertion sort
by line number; observationally equal to the stable ascending sort). -/
def pySort : List cueSyntaxError → List cueSyntaxError
  | [] => []
  | x :: xs => insRec x (pySort xs)

/-- Append the messages of `r` to the first record equal to it
(`self.errlist[i].message.extend(e.message)` after `index`). -/
def mergeFirst : List cueSyntaxError → cueSyntaxError → List cueSyntaxError
  | [], _ => []
  | x :: xs, r =>
    if x.line_num = r.line_num then
      ⟨x.line_num, x.line, x.message ++ r.message⟩ :: xs
    else
      x :: mergeFirst xs r

/-- `cueSynerrList.add`: merge into an equal record if one is present,
otherwise append and sort. -/
def addRec (L : List cueSyntaxError) (r : cueSyntaxError) : List cueSyntaxError :=
  if L.any (fun x => x.line_num = r.line_num) then mergeFirst L r
  else pySort (L ++ [r])

/-- A diagnostic emission: destination list (warnings or errors) plus
the freshly constructed record (always a single message). -/
structure Evt where
  toWarn : Bool
  record : cueSyntaxError
  deriving DecidableEq, Repr

/-- `errorlist.add(cueSyntaxError(ln, line, msg))`. -/
def errEvt (ln : Nat) (line : String) (msg : String) : Evt :=
  ⟨false, ⟨ln, line, [msg]⟩⟩

/-- `warnlist.add(cueSyntaxError(ln, line, msg))`. -/
def warnEvt (ln : Nat) (line : String) (msg : String) : Evt :=
  ⟨true, ⟨ln, line, [msg]⟩⟩

/-- Replay a list of emissions into the (errors, warnings) pair. -/
def applyEvts (s : List cueSyntaxError × List cueSyntaxError) (evts : List Evt) :
    List cueSyntaxError × List cueSyntaxError :=
  evts.foldl
    (fun p v => if v.toWarn then (p.1, addRec p.2 v.record) else (addRec p.1 v.record, p.2))
    s

/-- The own-node action of `checkCmdSyntax`: match the node's verbatim
line against its rule prefixed by the coerced indent; on failure record
"command syntax error" and leave the fields at their sentinels, on
success populate the keyword-specific fields and run the per-keyword
extra checks (length warning, time-component errors, referenced-file
existence via the filesystem collaborator `fs`). -/
def synOwn (fs : String → Bool) (n : Node) : Node × List Evt :=
  match n.key with
  | none => (n, [])
  | some k =>
    match matchCmd k n.indent n.line.data with
    | none => (n, [errEvt n.linenum n.line "command syntax error"])
    | some d =>
      match k, d with
      | .TITLE, .textG g2 | .PERFORMER, .textG g2 | .SONGWRITER, .textG g2 =>
        let w :=
          if 80 < g2.length then
            [warnEvt n.linenum n.line
              (keyStr k ++ " should not contain more than 80 characters")]
          else []
        let content :=
          String.mk (stripQuotes (joinSpace ((pySplit n.line.data).drop 1)))
        ({n with fields := {n.fields with content := content}}, w)
      | .CATALOG, .catalogG g1 =>
        ({n with fields := {n.fields with content := String.mk g1}}, [])
      | .ISRC, .isrcG g1 =>
        ({n with fields := {n.fields with content := String.mk g1}}, [])
      | .FILE, .fileG g2 _ =>
        let e :=
          if fs (String.mk g2) then []
          else [errEvt n.linenum n.line (String.mk g2 ++ " FILE not found")]
        ({n with fields := {n.fields with file := String.mk g2}}, e)
      | .TRACK, .trackG num ty =>
        ({n with fields := {n.fields with number := (num : Int), type := String.mk ty}}, [])
      | .PREGAP, .gapG m s f | .POSTGAP, .gapG m s f =>
        let e :=
          if 60 ≤ s || 75 ≤ f then
            [errEvt n.linenum n.line "time error (second >= 60 or frame >= 75)"]
          else []
        ({n with fields :=
            {n.fields with time := (m : ℚ) * 60 + (s : ℚ) + (f : ℚ) / 75}}, e)
      | .INDEX, .indexG num m s f =>
        let e :=
          if 60 ≤ s || 75 ≤ f then
            [errEvt n.linenum n.line "time error (second >= 60 or frame >= 75)"]
          else []
        let t : ℚ := (m : ℚ) * 60 + (s : ℚ) + (f : ℚ) / 75
        ({n with fields := {n.fields with number := (num : Int), time := t}}, e)
      | .REM, _ =>
        let ss := pySplit n.line.data
        if 3 ≤ ss.length ∧ pyIsUpper (ss.getD 1 []) then
          let ct := String.mk (stripQuotes (joinSpace (ss.drop 2)))
          ({n with fields := {n.fields with tag := String.mk (ss.getD 1 []), content := ct}}, [])
        else
          let ct := String.mk (n.line.data.drop 4)
          ({n with fields := {n.fields with tag := "", content := ct}}, [])
      | _, _ => (n, [])

/-- `checkCmdSyntax` over a track-level subtree (pre-order). -/
def synTr (fs : String → Bool) (t : TrackT) : TrackT × List Evt :=
  let p := synOwn fs t.node
  let rs := t.children.map (synOwn fs)
  (⟨p.1, rs.map (fun q => q.1)⟩, p.2 ++ (rs.map (fun q => q.2)).flatten)

/-- `checkCmdSyntax` over a document-level subtree (pre-order). -/
def synTop (fs : String → Bool) (f : TopT) : TopT × List Evt :=
  let p := synOwn fs f.node
  let rs := f.children.map (synTr fs)
  (⟨p.1, rs.map (fun q => q.1)⟩, p.2 ++ (rs.map (fun q => q.2)).flatten)

/-- `checkCmdSyntax(root)`: the root has no keyword so contributes no
events; the children are processed in order. -/
def synForest (fs : String → Bool) (forest : List TopT) :
    List TopT × List Evt :=
  let rs := forest.map (synTop fs)
  (rs.map (fun q => q.1), (rs.map (fun q => q.2)).flatten)

/-- Key comparison `c.key == cmd.key` between optional keys. -/
def sameKey (a b : Option Key) : Bool := a = b

/-- One iteration of the `for c in cmd.children` loop of
`checkCmdChildren`: the allowed-child check for `c`, then the
mandatory-child checks of the parent (re-emitted on every iteration,
exactly as in the source). -/
def childIter (n : Node) (childNodes : List Node) (c : Node) : List Evt :=
  (match n.key with
   | none => []
   | some k =>
     if (childrenOf k).contains c.key then []
     else
       [errEvt n.linenum n.line
         ("have error child " ++ (match c.key with
           | some ck => keyStr ck
           | none => "None"))]) ++
  (if n.key = some .FILE then
     (if childNodes.any (fun x => sameKey x.key (some .TRACK)) then []
      else [errEvt n.linenum n.line "FILE not have TRACK"])
   else if n.key = some .TRACK then
     (if childNodes.any (fun x => sameKey x.key (some .INDEX)) then []
      else [errEvt n.linenum n.line "TRACK not have INDEX"]) ++
     (if childNodes.any (fun x => sameKey x.key (some .TITLE)) then []
      else [warnEvt n.linenum n.line "TRACK not have TITLE"])
   else [])

/-- `checkCmdChildren` over a track-level subtree: each child iteration
followed by the (trivial) recursion into the leaf. -/
def childTr (t : TrackT) : List Evt :=
  t.children.flatMap (fun c => childIter t.node t.children c)

/-- `checkCmdChildren` over a document-level subtree. -/
def childTop (f : TopT) : List Evt :=
  f.children.flatMap
    (fun tr => childIter f.node (f.children.map (fun x => x.node)) tr.node ++ childTr tr)

/-- `checkCmdChildren(root)`: the root's keyword is `None`, so the root
level emits nothing of its own and recursion proceeds per child. -/
def childForest (forest : List TopT) : List Evt := forest.flatMap childTop

/-- The own-node action of `checkCmdMul`: a node whose keyword is not
`multiple` is reported when more than one of its parent's children
carries that keyword (the source's counting loop with early `break`). -/
def mulOwn (siblings : List Node) (n : Node) : List Evt :=
  match n.key with
  | none => []
  | some k =>
    if !multipleOf k ∧ 2 ≤ siblings.countP (fun x => sameKey x.key (some k)) then
      [errEvt n.linenum n.line "multiple command error"]
    else []

/-- `checkCmdMul(root)` in pre-order (root itself has no keyword). -/
def mulForest (forest : List TopT) : List Evt :=
  let rootSibs := forest.map (fun f => f.node)
  forest.flatMap (fun f =>
    mulOwn rootSibs f.node ++
    f.children.flatMap (fun tr =>
      mulOwn (f.children.map (fun x => x.node)) tr.node ++
      tr.children.flatMap (fun x => mulOwn tr.children x)))

/-- The own-node action of `checkCmdOrder` for the node at position `i`
among its parent's children: siblings strictly after it whose keyword is
in its `after` set, and siblings up to and including it whose keyword is
in its `before` set, each yield "command order error" at its line. -/
def orderOwn (pk : Option Key) (siblings : List Node) (i : Nat) (n : Node) :
    List Evt :=
  match n.key with
  | none => []
  | some k =>
    let pos := positionOf k pk
    (siblings.drop (i + 1)).flatMap
      (fun c => if (match c.key with
          | some ck => pos.1.contains ck
          | none => false) then
          [errEvt n.linenum n.line "command order error"] else []) ++
    (siblings.take (i + 1)).flatMap
      (fun c => if (match c.key with
          | some ck => pos.2.contains ck
          | none => false) then
          [errEvt n.linenum n.line "command order error"] else [])

/-- `checkCmdOrder(root)` in pre-order. -/
def orderForest (forest : List TopT) : List Evt :=
  let rootSibs := forest.map (fun f => f.node)
  (forest.enum).flatMap (fun p =>
    orderOwn none rootSibs p.1 p.2.node ++
    (p.2.children.enum).flatMap (fun q =>
      orderOwn p.2.node.key (p.2.children.map (fun x => x.node)) q.1 q.2.node ++
      (q.2.children.enum).flatMap (fun r =>
        orderOwn q.2.node.key q.2.children r.1 r.2)))

/-- Textual form of a number in a sequence-pass message.  `str(int)`
agrees with `toString : Int → String`; for the elapsed times (floats in
the source) the exact float rendering is abstracted by the rational's
rendering, which both sides of every statement share. -/
def numRepr (x : Int) : String := toString x

/-- Textual form of an elapsed time in a sequence-pass message. -/
def timeRepr (q : ℚ) : String := toString q

/-- The adjacent-pair loop of the track-numbering pass:
`if tracklist[i].number + 1 != tracklist[i+1].number`, with the error
attached to the line of the earlier track. -/
def trackPairEvts : List Node → List Evt
  | a :: b :: rest =>
    (if a.fields.number + 1 ≠ b.fields.number then
      [errEvt a.linenum a.line
        ("TRACK number error, " ++ numRepr a.fields.number ++ " -> " ++
          numRepr b.fields.number)]
     else []) ++ trackPairEvts (b :: rest)
  | _ => []

/-- The track-numbering pass over `tracklist`. -/
def trackSeqEvts (tracklist : List Node) : List Evt :=
  (match tracklist with
   | [] => []
   | t :: _ =>
     if t.fields.number ≠ 1 then
       [warnEvt t.linenum t.line "first TRACK number not is 1"]
     else []) ++ trackPairEvts tracklist

/-- The adjacent-pair loop of the per-file index-timing pass:
`if findex[i].time >= findex[i+1].time`. -/
def fileIndexPairEvts : List Node → List Evt
  | a :: b :: rest =>
    (if b.fields.time ≤ a.fields.time then
      [errEvt a.linenum a.line
        ("INDEX time error, " ++ timeRepr a.fields.time ++ " >= " ++
          timeRepr b.fields.time)]
     else []) ++ fileIndexPairEvts (b :: rest)
  | _ => []

/-- The per-file index-timing pass over one file's `findex` list. -/
def fileSeqOne (findex : List Node) : List Evt :=
  (match findex with
   | [] => []
   | x :: _ =>
     if x.fields.time ≠ 0 then
       [errEvt x.linenum x.line "first INDEX time not is 0 of FILE"]
     else []) ++ fileIndexPairEvts findex

/-- The adjacent-pair loop of the per-track index-numbering pass. -/
def trackIndexPairEvts : List Node → List Evt
  | a :: b :: rest =>
    (if a.fields.number + 1 ≠ b.fields.number then
      [errEvt a.linenum a.line
        ("INDEX number error, " ++ numRepr a.fields.number ++ " -> " ++
          numRepr b.fields.number)]
     else []) ++ trackIndexPairEvts (b :: rest)
  | _ => []

/-- The per-track index-numbering pass over one track's `tindex` list. -/
def trackIndexOne (tindex : List Node) : List Evt :=
  (match tindex with
   | [] => []
   | x :: _ =>
     if x.fields.number = 0 ∨ x.fields.number = 1 then []
     else [errEvt x.linenum x.line "first INDEX number not is 0 or 1 of TRACK"]) ++
  trackIndexPairEvts tindex

/-- Every node of the forest in pre-order, paired with the pre-order
node list of its own subtree (what `getCmds` enumerates from it). -/
def withSubtrees (forest : List TopT) : List (Node × List Node) :=
  forest.flatMap (fun f =>
    (f.node, subtreeTop f) :: f.children.flatMap (fun tr =>
      (tr.node, subtreeTr tr) :: tr.children.map (fun x => (x, [x]))))

/-- `[x for x in getCmds(root, 'TRACK')]`. -/
def tracklistOf (forest : List TopT) : List Node :=
  (withSubtrees forest).filterMap
    (fun p => if sameKey p.1.key (some .TRACK) then some p.1 else none)

/-- The whole per-file index-timing pass:
`for c in getCmds(root, 'FILE')` with `findex = getCmds(c, 'INDEX')`. -/
def fileSeqEvts (forest : List TopT) : List Evt :=
  (withSubtrees forest).flatMap (fun p =>
    if sameKey p.1.key (some .FILE) then
      fileSeqOne (p.2.filter (fun x => sameKey x.key (some .INDEX)))
    else [])

/-- The whole per-track index-numbering pass:
`for c in tracklist` with `tindex = getCmds(c, 'INDEX')`. -/
def trackIdxSeqEvts (forest : List TopT) : List Evt :=
  (withSubtrees forest).flatMap (fun p =>
    if sameKey p.1.key (some .TRACK) then
      trackIndexOne (p.2.filter (fun x => sameKey x.key (some .INDEX)))
    else [])

/-- Result of classifying one raw line: blank, keyword not in the
registry, or a command with its (possibly coerced) depth; the flags
record the "command not is capital" and "indent error" diagnostics. -/
inductive ClassifyRes where
  | blank : ClassifyRes
  | notfound (capBad : Bool) : ClassifyRes
  | cmd (k : Key) (c : Nat) (capBad indBad : Bool) : ClassifyRes
  deriving DecidableEq, Repr

/-- Depth coercion on an indent error: the sole permitted depth, or the
second (deeper) one when two are permitted. -/
def coerceIndent (k : Key) : Nat :=
  match indentsOf k with
  | [x] => x
  | _ :: y :: _ => y
  | [] => 0

/-- Steps 1-4 of the classifier for one raw line: collapse/split,
capitalisation check, registry lookup, indent measurement and coercion. -/
def classifyLine (l : List Char) : ClassifyRes :=
  match pySplit l with
  | [] => .blank
  | t0 :: _ =>
    let capBad := !pyIsUpper t0
    match keyOfTok (pyToUpper t0) with
    | none => .notfound capBad
    | some k =>
      let g := getSpace l
      if g ∈ indentsOf k then .cmd k g capBad false
      else .cmd k (coerceIndent k) capBad true

/-- Mutable classifier state: the forest under the root and the "open
ancestor" linenums `current[1]` (last FILE) and `current[2]` (last
TRACK), plus the error set the classifier has accumulated. -/
structure BState where
  forest : List TopT
  curFile : Option Nat
  curTrack : Option Nat
  errs : List cueSyntaxError

/-- Append a new track-level child to the open FILE node (identified by
its linenum, which is unique in a built forest). -/
def appendToFile (fln : Nat) (t : TrackT) (forest : List TopT) : List TopT :=
  forest.map (fun f =>
    if f.node.linenum = fln then ⟨f.node, f.children ++ [t]⟩ else f)

/-- Append a new leaf child to the open TRACK node. -/
def appendToTrack (tln : Nat) (x : Node) (forest : List TopT) : List TopT :=
  forest.map (fun f =>
    ⟨f.node, f.children.map (fun tr =>
      if tr.node.linenum = tln then ⟨tr.node, tr.children ++ [x]⟩ else tr)⟩)

/-- `current[1] = c` / `current[2] = c` after node creation. -/
def pointerUpd (k : Key) (ln : Nat) (st : BState) : BState :=
  if k = .FILE then {st with curFile := some ln}
  else if k = .TRACK then {st with curTrack := some ln}
  else st

/-- One iteration of the classifier loop (0-based line index `i`);
`.error` is the fatal `cuecheckError` raised on an unresolved parent. -/
def classifyStep (st : BState) (i : Nat) (line : String) : Except String BState :=
  match classifyLine line.data with
  | .blank => .ok {st with errs := addRec st.errs ⟨i + 1, line, ["is blank"]⟩}
  | .notfound capBad =>
    let e1 :=
      if capBad then addRec st.errs ⟨i + 1, line, ["command not is capital"]⟩
      else st.errs
    .ok {st with errs := addRec e1 ⟨i + 1, line, ["command not found"]⟩}
  | .cmd k c capBad indBad =>
    let e1 :=
      if capBad then addRec st.errs ⟨i + 1, line, ["command not is capital"]⟩
      else st.errs
    let e2 := if indBad then addRec e1 ⟨i + 1, line, ["indent error"]⟩ else e1
    let n : Node := ⟨i + 1, some k, line, c, {}⟩
    match c / 2 with
    | 0 =>
      .ok (pointerUpd k (i + 1)
        {st with forest := st.forest ++ [⟨n, []⟩], errs := e2})
    | 1 =>
      (match st.curFile with
       | none => .error "parent error"
       | some fln =>
         .ok (pointerUpd k (i + 1)
           {st with forest := appendToFile fln ⟨n, []⟩ st.forest, errs := e2}))
    | 2 =>
      (match st.curTrack with
       | none => .error "parent error"
       | some tln =>
         .ok (pointerUpd k (i + 1)
           {st with forest := appendToTrack tln n st.forest, errs := e2}))
    | _ => .error "parent error"

/-- The classifier loop over the remaining lines. -/
def buildAux : BState → Nat → List String → Except String BState
  | st, _, [] => .ok st
  | st, i, l :: ls =>
    match classifyStep st i l with
    | .error e => .error e
    | .ok st' => buildAux st' (i + 1) ls

/-- Empty classifier state (fresh root, no open FILE or TRACK). -/
def initState : BState := ⟨[], none, none, []⟩

/-- Independent characterisation of the fatal structural failure: scan
the lines tracking only whether a FILE and a TRACK node are open, and
report whether some line's required open ancestor is missing. -/
def scanAux : Bool → Bool → List String → Bool
  | _, _, [] => false
  | fl, tr, l :: ls =>
    match classifyLine l.data with
    | .blank => scanAux fl tr ls
    | .notfound _ => scanAux fl tr ls
    | .cmd k c _ _ =>
      match c / 2 with
      | 0 => scanAux (fl || k = .FILE) (tr || k = .TRACK) ls
      | 1 => if fl then scanAux (fl || k = .FILE) (tr || k = .TRACK) ls else true
      | 2 => if tr then scanAux (fl || k = .FILE) (tr || k = .TRACK) ls else true
      | _ => true

/-- Result of one whole run: the fatal `cuecheckError` (wrong extension,
missing file, decode failure, unresolved parent), the uncaught
`IndexError` of the byte-order-marker check on an empty document, or
the returned (errors, warnings, tree) triple. -/
inductive Outcome where
  | fatal (msg : String) : Outcome
  | crash : Outcome
  | ok (errs warns : List cueSyntaxError) (forest : List TopT) : Outcome
  deriving Repr

/-- The validation passes in program order, starting from the error set
accumulated by the classifier (the warning set starts empty). -/
def runChecks (fs : String → Bool) (st : BState) : Outcome :=
  let p := synForest fs st.forest
  let evts :=
    p.2 ++ childForest p.1 ++ mulForest p.1 ++ orderForest p.1 ++
    trackSeqEvts (tracklistOf p.1) ++ fileSeqEvts p.1 ++ trackIdxSeqEvts p.1
  let sets := applyEvts (st.errs, []) evts
  .ok sets.1 sets.2 p.1

/-- The byte-order marker. -/
def bomChar : Char := Char.ofNat 0xFEFF

/-- `if d[0].startswith('﻿'): d[0] = d[0][1:]`. -/
def stripBOM (s : String) : String :=
  match s.data with
  | c :: rest => if c = bomChar then String.mk rest else s
  | [] => s

/-- The whole `cuecheck` run.  `extOk` is the `.cue`-extension test,
`fileExists` the existence probe for the document itself, `decodeOk`
decodability, `fs` the existence probe for referenced media files, and
`lines` the decoded document (`f.read().splitlines()`). -/
def cuecheckModel (fs : String → Bool) (extOk fileExists decodeOk : Bool)
    (lines : List String) : Outcome :=
  if !extOk then .fatal "is not cue."
  else if !fileExists then .fatal "is not exists."
  else if !decodeOk then .fatal "Decode Error"
  else
    match lines with
    | [] => .crash
    | l0 :: rest =>
      match buildAux initState 0 (stripBOM l0 :: rest) with
      | .error e => .fatal e
      | .ok st => runChecks fs st

/-- Whether a run ended in the fatal whole-file error. -/
def Outcome.isFatal : Outcome → Bool
  | .fatal _ => true
  | _ => false

/-- The warning set of a completed run (`[]` when the run did not
complete). -/
def Outcome.warnsOf : Outcome → List cueSyntaxError
  | .ok _ w _ => w
  | _ => []

/-- The error set of a completed run. -/
def Outcome.errsOf : Outcome → List cueSyntaxError
  | .ok e _ _ => e
  | _ => []

/-- The tree of a completed run. -/
def Outcome.forestOf : Outcome → List TopT
  | .ok _ _ f => f
  | _ => []

/-- Spec-side form of the track-numbering head check, following the
spec's words: "warn if the first's number ≠ 1". -/
def specFirstTrackWarn (tl : List Node) : List Evt :=
  match tl with
  | [] => []
  | t :: _ =>
    if t.fields.number = 1 then []
    else [warnEvt t.linenum t.line "first TRACK number not is 1"]

/-- Spec-side form of the track-numbering pair check, following the
spec's words: "error if any adjacent pair's numbers are not consecutive
(n, n+1)", the error attached to the earlier track's line. -/
def specTrackPairs (tl : List Node) : List Evt :=
  (tl.zip tl.tail).flatMap (fun p =>
    if p.1.fields.number + 1 = p.2.fields.number then []
    else
      [errEvt p.1.linenum p.1.line
        ("TRACK number error, " ++ numRepr p.1.fields.number ++ " -> " ++
          numRepr p.2.fields.number)])

/-- Spec-side form of the per-file index-timing pass, following the
spec's words: "error if the first's elapsed time ≠ 0; error if any
adjacent pair is not strictly increasing (equal times are a
violation)". -/
def specFileTiming (findex : List Node) : List Evt :=
  (match findex with
   | [] => []
   | x :: _ =>
     if x.fields.time = 0 then []
     else [errEvt x.linenum x.line "first INDEX time not is 0 of FILE"]) ++
  (findex.zip findex.tail).flatMap (fun p =>
    if p.1.fields.time < p.2.fields.time then []
    else
      [errEvt p.1.linenum p.1.line
        ("INDEX time error, " ++ timeRepr p.1.fields.time ++ " >= " ++
          timeRepr p.2.fields.time)])

/-- Every node of the forest paired with the list of its parent's
children (its siblings, itself included), in pre-order. -/
def siblingPairs (forest : List TopT) : List (List Node × Node) :=
  let rootSibs := forest.map (fun f => f.node)
  forest.flatMap (fun f =>
    (rootSibs, f.node) :: f.children.flatMap (fun tr =>
      (f.children.map (fun x => x.node), tr.node) ::
        tr.children.map (fun x => (tr.children, x))))

/-- Whether classification would hit a line whose required open ancestor
is missing: the independent characterisation of the fatal structural
failure used by the error-handling claim (the byte-order marker of the
first line is stripped, as the run does before classifying). -/
def parentFailure (lines : List String) : Bool :=
  match lines with
  | [] => false
  | l0 :: rest => scanAux false false (stripBOM l0 :: rest)

/-- Whether the classifier loop raised the fatal error. -/
def isErr : Except String BState → Bool
  | .error _ => true
  | .ok _ => false

/-- The line numbers of a diagnostic list. -/
def keysOf (L : List cueSyntaxError) : List Nat := L.map (fun r => r.line_num)

/-- Strictly ascending line numbers (which also rules out duplicates). -/
def keysAsc (L : List cueSyntaxError) : Prop := List.Chain' (· < ·) (keysOf L)

/-- Comparison of two records by line number (`cueSyntaxError.__lt__`
non-strictly, as the sort orders records). -/
def keyLE (a b : cueSyntaxError) : Prop := a.line_num ≤ b.line_num

/-- The invariant the classifier guarantees for every node it creates:
fields still at their sentinels, and the (possibly coerced) depth among
the keyword's permitted depths. -/
def NodeOK (n : Node) : Prop :=
  n.fields = {} ∧ ∀ k, n.key = some k → n.indent ∈ indentsOf k

/-- A REM node as the classifier creates it (fields at their
sentinels), for statements about the remark tagger. -/
def remNode (l : String) : Node := ⟨1, some .REM, l, 0, {}⟩

/-- A stub filesystem collaborator on which every referenced media file
exists. -/
def fsAll : String → Bool := fun _ => true

/-- A document whose only TRACK line fails syntax validation (`TRACK 1`
has a one-digit number), leaving its number field at the sentinel. -/
def docSentinelTrack : List String :=
  ["FILE \"a.bin\" WAVE", "  TRACK 1 AUDIO"]

/-- A document whose top-level TITLE line carries 2 leading spaces. -/
def docIndentTitle : List String :=
  ["FILE \"a.bin\" WAVE", "  TRACK 01 AUDIO", "  TITLE X"]

/-! ## Theorems -/

/-- C9: on an empty (but existing, decodable, `.cue`-named) document the
run neither returns diagnostic sets nor raises the documented whole-file
error: the byte-order-marker check indexes the first line of an empty
list, so the run dies with the out-of-range access before any
classification happens. -/
theorem c9_empty_document_crashes (fs : String → Bool) :
    cuecheckModel fs true true true [] = Outcome.crash := rfl

/-- C1 counterexample: in `docSentinelTrack` the only TRACK node failed
syntax validation, so its number field is still the unset sentinel `-1`;
the track-numbering pass nevertheless compares it with 1 and emits the
first-track warning, so the sequence passes do not skip sentinel
operands. -/
theorem c1_counterexample :
    (tracklistOf ((cuecheckModel fsAll true true true docSentinelTrack).forestOf)).map
        (fun n => n.fields.number) = [-1] ∧
    (cuecheckModel fsAll true true true docSentinelTrack).errsOf =
      [⟨2, "  TRACK 1 AUDIO", ["command syntax error"]⟩] ∧
    (cuecheckModel fsAll true true true docSentinelTrack).warnsOf =
      [⟨2, "  TRACK 1 AUDIO", ["first TRACK number not is 1"]⟩] := by
  decide

/-- C2 counterexample: a top-level TITLE written with 2 leading spaces
gets the "indent error" diagnostic, but its depth is coerced to 4 (the
deeper permitted depth), so the node attaches to the open TRACK node and
not to the document root. -/
theorem c2_counterexample :
    ((cuecheckModel fsAll true true true docIndentTitle).errsOf =
      [⟨2, "  TRACK 01 AUDIO", ["TRACK not have INDEX"]⟩,
       ⟨3, "  TITLE X", ["indent error", "command syntax error"]⟩]) ∧
    ((cuecheckModel fsAll true true true docIndentTitle).forestOf.map
        (fun f => (f.node.linenum, f.children.map (fun tr =>
          (tr.node.linenum, tr.children.map (fun x => (x.linenum, x.indent))))))
      = [(1, [(2, [(3, 4)])])]) := by
  decide

/-- C8 counterexample: the remark line `REM FOO` matches its rule and
its second token is fully upper-case, yet the tag field is left empty
(the tagger also requires a third token) and the content field receives
the token instead. -/
theorem c8_counterexample :
    (matchCmd .REM 0 "REM FOO".data).isSome = true ∧
    pyIsUpper ((pySplit "REM FOO".data).getD 1 []) = true ∧
    (synOwn fsAll (remNode "REM FOO")).1.fields.tag = "" ∧
    (synOwn fsAll (remNode "REM FOO")).1.fields.content = "FOO" ∧
    ("" : String) ≠ String.mk ((pySplit "REM FOO".data).getD 1 []) := by
  decide

/-- The coerced depth is one of the keyword's permitted depths. -/
theorem coerceIndent_mem (k : Key) : coerceIndent k ∈ indentsOf k := by
  cases k <;> decide

/-- The coerced depth is the last (deepest) permitted depth, i.e. the
sole one, or the deeper of a permitted pair. -/
theorem coerceIndent_last (k : Key) :
    (indentsOf k).getLast? = some (coerceIndent k) := by
  cases k <;> decide

/-- C1 (amended): the sequence passes perform comparisons on sentinel
operands like on any other value, so diagnostics are emitted rather
than skipped: a leading track whose number is still `-1` draws the
first-track warning, two adjacent index markers whose times are still
`-1` draw the strict-monotonicity error, and a leading index whose
number is still `-1` draws the first-index-number error. -/
theorem c1_sentinels_not_skipped :
    (∀ (t : Node) (ts : List Node), t.fields.number = -1 →
      warnEvt t.linenum t.line "first TRACK number not is 1" ∈
        trackSeqEvts (t :: ts)) ∧
    (∀ (a b : Node) (l : List Node),
      a.fields.time = -1 → b.fields.time = -1 →
      errEvt a.linenum a.line
          ("INDEX time error, " ++ timeRepr a.fields.time ++ " >= " ++
            timeRepr b.fields.time) ∈
        fileSeqOne (a :: b :: l)) ∧
    (∀ (x : Node) (l : List Node), x.fields.number = -1 →
      errEvt x.linenum x.line "first INDEX number not is 0 or 1 of TRACK" ∈
        trackIndexOne (x :: l)) := by
  refine ⟨?_, ?_, ?_⟩
  · intro t ts h
    unfold trackSeqEvts
    simp [h]
  · intro a b l h1 h2
    unfold fileSeqOne fileIndexPairEvts
    rw [h1, h2]
    simp
  · intro x l h
    unfold trackIndexOne
    simp [h]

/-- C1 witness: the sentinel-operand diagnostics at concrete nodes. -/
theorem c1_sentinels_not_skipped_witness :
    warnEvt 2 "t" "first TRACK number not is 1" ∈
      trackSeqEvts [⟨2, some .TRACK, "t", 2, {}⟩] ∧
    errEvt 3 "i" ("INDEX time error, " ++ timeRepr (-1) ++ " >= " ++ timeRepr (-1)) ∈
      fileSeqOne [⟨3, some .INDEX, "i", 4, {}⟩, ⟨4, some .INDEX, "j", 4, {}⟩] ∧
    errEvt 3 "i" "first INDEX number not is 0 or 1 of TRACK" ∈
      trackIndexOne [⟨3, some .INDEX, "i", 4, {}⟩] :=
  ⟨c1_sentinels_not_skipped.1 ⟨2, some .TRACK, "t", 2, {}⟩ [] rfl,
   c1_sentinels_not_skipped.2.1 ⟨3, some .INDEX, "i", 4, {}⟩
     ⟨4, some .INDEX, "j", 4, {}⟩ [] rfl rfl,
   c1_sentinels_not_skipped.2.2 ⟨3, some .INDEX, "i", 4, {}⟩ [] rfl⟩

/-- C2 (amended): a line whose leading-space count is not a permitted
depth draws the "indent error" diagnostic and its depth is coerced to
the keyword's sole permitted depth, or to the deeper one when two are
permitted (the last entry of the depth list); placement then proceeds at
the coerced depth, so a top-level TITLE written with 2 leading spaces is
coerced to depth 4 and attaches to the open track-level node — not the
document root — while subsequent passes proceed normally. -/
theorem c2_indent_coercion :
    (∀ (l : List Char) (k : Key) (t0 : List Char) (ts : List (List Char)),
        pySplit l = t0 :: ts → keyOfTok (pyToUpper t0) = some k →
        getSpace l ∉ indentsOf k →
        classifyLine l = .cmd k (coerceIndent k) (!pyIsUpper t0) true ∧
        coerceIndent k ∈ indentsOf k ∧
        (indentsOf k).getLast? = some (coerceIndent k)) ∧
    ((cuecheckModel fsAll true true true docIndentTitle).errsOf =
      [⟨2, "  TRACK 01 AUDIO", ["TRACK not have INDEX"]⟩,
       ⟨3, "  TITLE X", ["indent error", "command syntax error"]⟩] ∧
     (cuecheckModel fsAll true true true docIndentTitle).forestOf.map
        (fun f => (f.node.linenum, f.children.map (fun tr =>
          (tr.node.linenum, tr.children.map (fun x => (x.linenum, x.indent))))))
       = [(1, [(2, [(3, 4)])])]) := by
  constructor
  · intro l k t0 ts h1 h2 h3
    refine ⟨?_, coerceIndent_mem k, coerceIndent_last k⟩
    unfold classifyLine
    rw [h1]
    simp only [h2]
    rw [if_neg h3]
  · exact ⟨by decide, by decide⟩

/-- C2 witness: the coercion at the concrete 2-space TITLE line. -/
theorem c2_indent_coercion_witness :
    classifyLine "  TITLE X".data =
      .cmd .TITLE (coerceIndent .TITLE) (!pyIsUpper "TITLE".data) true ∧
    coerceIndent .TITLE ∈ indentsOf .TITLE ∧
    (indentsOf .TITLE).getLast? = some (coerceIndent .TITLE) :=
  c2_indent_coercion.1 "  TITLE X".data .TITLE "TITLE".data ["X".data]
    (by decide) (by decide) (by decide)

/-- C8 (amended): for a REM node that matches its rule, the tagger
requires at least three whitespace-delimited tokens with a fully
upper-case second one to split off a tag (the tag is then the second
token and the content the quote-stripped join of the rest); in every
other case — including a fully upper-case second token with nothing
after it — the tag is empty and the content is the verbatim line from
its fifth character on. -/
theorem c8_rem_tagging (fs : String → Bool) (n : Node) (hk : n.key = some .REM)
    (hm : (matchCmd .REM n.indent n.line.data).isSome = true) :
    ((3 ≤ (pySplit n.line.data).length ∧
        pyIsUpper ((pySplit n.line.data).getD 1 [])) →
      (synOwn fs n).1.fields.tag =
        String.mk ((pySplit n.line.data).getD 1 []) ∧
      (synOwn fs n).1.fields.content =
        String.mk (stripQuotes (joinSpace ((pySplit n.line.data).drop 2)))) ∧
    (¬(3 ≤ (pySplit n.line.data).length ∧
        pyIsUpper ((pySplit n.line.data).getD 1 [])) →
      (synOwn fs n).1.fields.tag = "" ∧
      (synOwn fs n).1.fields.content = String.mk (n.line.data.drop 4)) := by
  obtain ⟨d, hd⟩ := Option.isSome_iff_exists.mp hm
  constructor
  · intro hcond
    unfold synOwn
    simp only [hk, hd]
    cases d <;> (rw [if_pos hcond]; exact ⟨rfl, rfl⟩)
  · intro hcond
    unfold synOwn
    simp only [hk, hd]
    cases d <;> (rw [if_neg hcond]; exact ⟨rfl, rfl⟩)

/-- C8 witness: the tagging branches at the concrete remark
`REM FOO bar`. -/
theorem c8_rem_tagging_witness :
    (synOwn fsAll (remNode "REM FOO bar")).1.fields.tag =
      String.mk ((pySplit (remNode "REM FOO bar").line.data).getD 1 []) ∧
    (synOwn fsAll (remNode "REM FOO bar")).1.fields.content =
      String.mk
        (stripQuotes (joinSpace ((pySplit (remNode "REM FOO bar").line.data).drop 2))) :=
  (c8_rem_tagging fsAll (remNode "REM FOO bar") rfl (by decide)).1 (by decide)

/-- The indexed adjacent-pair loop of the track-numbering pass equals
the adjacent-pair formulation of the spec. -/
theorem trackPairEvts_eq_spec : ∀ tl, trackPairEvts tl = specTrackPairs tl := by
  intro tl
  induction tl with
  | nil => rfl
  | cons a tl ih =>
    cases tl with
    | nil => rfl
    | cons b rest =>
      have h2 : specTrackPairs (a :: b :: rest) =
          (if a.fields.number + 1 = b.fields.number then []
           else
             [errEvt a.linenum a.line
               ("TRACK number error, " ++ numRepr a.fields.number ++ " -> " ++
                 numRepr b.fields.number)]) ++ specTrackPairs (b :: rest) := by
        simp [specTrackPairs]
      rw [trackPairEvts, h2, ← ih]
      by_cases h : a.fields.number + 1 = b.fields.number
      · simp [h]
      · simp [h]

/-- The indexed adjacent-pair loop of the per-file timing pass equals
the not-strictly-increasing formulation of the spec (`a >= b` iff not
`a < b`). -/
theorem fileIndexPairEvts_eq_spec :
    ∀ l, fileIndexPairEvts l =
      (l.zip l.tail).flatMap (fun p =>
        if p.1.fields.time < p.2.fields.time then []
        else
          [errEvt p.1.linenum p.1.line
            ("INDEX time error, " ++ timeRepr p.1.fields.time ++ " >= " ++
              timeRepr p.2.fields.time)]) := by
  intro l
  induction l with
  | nil => rfl
  | cons a l ih =>
    cases l with
    | nil => rfl
    | cons b rest =>
      rw [fileIndexPairEvts]
      simp only [List.tail_cons, List.zip_cons_cons, List.flatMap_cons]
      rw [ih]
      by_cases h : a.fields.time < b.fields.time
      · rw [if_pos h, if_neg (by exact not_le.mpr h)]
        simp
      · rw [if_neg h, if_pos (not_lt.mp h)]
        simp

/-- C6: over the track-introducing nodes in source order, the
track-numbering pass warns exactly when the first track's number is not
1 and errors exactly on each adjacent non-consecutive pair, the error
being attached to the earlier track's line (visible in the
`specTrackPairs` form, which uses the earlier node's line number). -/
theorem c6_track_numbering (forest : List TopT) :
    trackSeqEvts (tracklistOf forest) =
      specFirstTrackWarn (tracklistOf forest) ++
        specTrackPairs (tracklistOf forest) := by
  generalize tracklistOf forest = tl
  unfold trackSeqEvts specFirstTrackWarn
  rw [trackPairEvts_eq_spec]
  cases tl with
  | nil => rfl
  | cons t ts => by_cases h : t.fields.number = 1 <;> simp [h]

/-- C5: for each file-introducing node, over its descendant index
markers in source order, the timing pass errors exactly when the first
marker's elapsed time is not 0 and exactly on each adjacent pair that is
not strictly increasing — equal times included. -/
theorem c5_file_index_timing (forest : List TopT) :
    fileSeqEvts forest =
      (withSubtrees forest).flatMap (fun p =>
        if sameKey p.1.key (some .FILE) then
          specFileTiming (p.2.filter (fun x => sameKey x.key (some .INDEX)))
        else []) := by
  unfold fileSeqEvts specFileTiming fileSeqOne
  simp only [fileIndexPairEvts_eq_spec]
  refine congrArg _ ?_
  funext p
  by_cases h : sameKey p.1.key (some .FILE) = true
  · rw [if_pos h, if_pos h]
    cases hx : (p.2.filter (fun x => sameKey x.key (some .INDEX))) with
    | nil => rfl
    | cons x l => by_cases h0 : x.fields.time = 0 <;> simp [h0]
  · rw [if_neg h, if_neg h]

/-- The pre-order multiplicity pass is the own-node check evaluated at
every (siblings, node) pair of the tree. -/
theorem mulForest_eq (forest : List TopT) :
    mulForest forest = (siblingPairs forest).flatMap (fun p => mulOwn p.1 p.2) := by
  unfold mulForest siblingPairs
  simp only [List.flatMap_assoc, List.flatMap_cons, List.flatMap_map]

/-- C7: a node whose keyword is marked singleton draws the "multiple
command error" diagnostic at its own line whenever more than one of its
parent's children (itself included) carries that keyword — every such
node individually, the first occurrence included. -/
theorem c7_multiple_command (forest : List TopT) (sibs : List Node) (n : Node)
    (k : Key) (h1 : (sibs, n) ∈ siblingPairs forest) (h2 : n.key = some k)
    (h3 : multipleOf k = false)
    (h4 : 2 ≤ sibs.countP (fun x => sameKey x.key (some k))) :
    errEvt n.linenum n.line "multiple command error" ∈ mulForest forest := by
  rw [mulForest_eq]
  refine List.mem_flatMap.mpr ⟨(sibs, n), h1, ?_⟩
  unfold mulOwn
  simp only [h2]
  rw [if_pos ⟨by simp [h3], h4⟩]
  exact List.mem_singleton.mpr rfl

/-- C7 witness: two top-level CATALOG lines; the first of them draws a
"multiple command error" at its own line. -/
theorem c7_multiple_command_witness :
    errEvt 1 "CATALOG 1234567890123" "multiple command error" ∈
      mulForest
        [⟨⟨1, some .CATALOG, "CATALOG 1234567890123", 0, {}⟩, []⟩,
         ⟨⟨2, some .CATALOG, "CATALOG 1234567890123", 0, {}⟩, []⟩] :=
  c7_multiple_command
    [⟨⟨1, some .CATALOG, "CATALOG 1234567890123", 0, {}⟩, []⟩,
     ⟨⟨2, some .CATALOG, "CATALOG 1234567890123", 0, {}⟩, []⟩]
    [⟨1, some .CATALOG, "CATALOG 1234567890123", 0, {}⟩,
     ⟨2, some .CATALOG, "CATALOG 1234567890123", 0, {}⟩]
    ⟨1, some .CATALOG, "CATALOG 1234567890123", 0, {}⟩ .CATALOG
    (by decide) rfl (by decide) (by decide)

/-- Sorted insertion inserts exactly the new record. -/
theorem mem_insRec {x r : cueSyntaxError} : ∀ {l}, x ∈ insRec r l ↔ x = r ∨ x ∈ l := by
  intro l
  induction l with
  | nil => simp [insRec]
  | cons y ys ih =>
    unfold insRec
    by_cases h : r.line_num < y.line_num
    · simp [h]
    · simp [h, ih]
      tauto

/-- Sorted insertion preserves sortedness by line number. -/
theorem sorted_insRec (r : cueSyntaxError) :
    ∀ {l}, l.Pairwise keyLE → (insRec r l).Pairwise keyLE := by
  intro l h
  induction l with
  | nil => simp [insRec, List.pairwise_cons]
  | cons y ys ih =>
    rw [List.pairwise_cons] at h
    unfold insRec
    by_cases hlt : r.line_num < y.line_num
    · rw [if_pos hlt]
      refine List.pairwise_cons.mpr ⟨?_, List.pairwise_cons.mpr ⟨h.1, h.2⟩⟩
      intro z hz
      rcases List.mem_cons.mp hz with rfl | hz'
      · exact le_of_lt hlt
      · exact le_trans (le_of_lt hlt) (h.1 z hz')
    · rw [if_neg hlt]
      refine List.pairwise_cons.mpr ⟨?_, ih h.2⟩
      intro z hz
      rcases mem_insRec.mp hz with rfl | hz'
      · exact not_lt.mp hlt
      · exact h.1 z hz'

/-- The sort model returns a sorted list. -/
theorem sorted_pySort : ∀ l, (pySort l).Pairwise keyLE := by
  intro l
  induction l with
  | nil => simp [pySort]
  | cons x xs ih => exact sorted_insRec x ih

/-- The sort model permutes its input. -/
theorem pySort_perm : ∀ l : List cueSyntaxError, List.Perm (pySort l) l := by
  intro l
  induction l with
  | nil => rfl
  | cons x xs ih =>
    unfold pySort
    have step : ∀ m : List cueSyntaxError, List.Perm (insRec x m) (x :: m) := by
      intro m
      induction m with
      | nil => exact List.Perm.refl _
      | cons y ys ih2 =>
        unfold insRec
        by_cases h : x.line_num < y.line_num
        · rw [if_pos h]
        · rw [if_neg h]
          exact (ih2.cons y).trans (List.Perm.swap x y ys)
    exact (step (pySort xs)).trans (ih.cons x)

/-- Merging into the record with an equal line number does not change
the line numbers of the set. -/
theorem keysOf_mergeFirst (r : cueSyntaxError) :
    ∀ l, keysOf (mergeFirst l r) = keysOf l := by
  intro l
  induction l with
  | nil => rfl
  | cons y ys ih =>
    unfold mergeFirst
    by_cases h : y.line_num = r.line_num
    · simp [h, keysOf]
    · simp only [if_neg h, keysOf, List.map_cons]
      exact congrArg _ ih

/-- `add` preserves the strictly-ascending-line-numbers invariant. -/
theorem addRec_keysAsc {L : List cueSyntaxError} {r : cueSyntaxError}
    (h : keysAsc L) : keysAsc (addRec L r) := by
  unfold addRec
  by_cases hany : L.any (fun x => x.line_num = r.line_num) = true
  · rw [if_pos hany]
    unfold keysAsc
    rw [keysOf_mergeFirst]
    exact h
  · rw [if_neg hany]
    have hfresh : ∀ x ∈ L, x.line_num ≠ r.line_num := by
      intro x hx
      by_contra he
      exact hany (List.any_eq_true.mpr ⟨x, hx, by simp [he]⟩)
    have hlt : L.Pairwise (fun a b : cueSyntaxError => a.line_num < b.line_num) := by
      have := List.chain'_iff_pairwise.mp h
      exact (List.pairwise_map.mp this)
    have hne : (L ++ [r]).Pairwise
        (fun a b : cueSyntaxError => a.line_num ≠ b.line_num) := by
      rw [List.pairwise_append]
      refine ⟨hlt.imp (fun hab => ne_of_lt hab), by simp, ?_⟩
      intro x hx y hy
      rcases List.mem_singleton.mp hy with rfl
      exact hfresh x hx
    have hne2 : (pySort (L ++ [r])).Pairwise
        (fun a b : cueSyntaxError => a.line_num ≠ b.line_num) := by
      refine ((pySort_perm (L ++ [r])).pairwise_iff ?_).mpr hne
      intro a b hab
      exact hab.symm
    have hle := sorted_pySort (L ++ [r])
    unfold keysAsc keysOf
    rw [List.chain'_iff_pairwise, List.pairwise_map]
    exact (hle.and hne2).imp (fun hab => lt_of_le_of_ne hab.1 hab.2)

/-- `mergeFirst` rewrites exactly the first record with the given line
number, appending the new messages to it. -/
theorem mergeFirst_spec (r : cueSyntaxError) :
    ∀ L : List cueSyntaxError, (∃ x ∈ L, x.line_num = r.line_num) →
      ∃ pre x post, L = pre ++ x :: post ∧ x.line_num = r.line_num ∧
        mergeFirst L r =
          pre ++ (⟨x.line_num, x.line, x.message ++ r.message⟩ : cueSyntaxError) :: post := by
  intro L
  induction L with
  | nil => rintro ⟨x, hx, -⟩; cases hx
  | cons y ys ih =>
    intro hx
    by_cases h : y.line_num = r.line_num
    · refine ⟨[], y, ys, rfl, h, ?_⟩
      unfold mergeFirst
      rw [if_pos h]
      rfl
    · obtain ⟨x, hxm, hxe⟩ := hx
      rcases List.mem_cons.mp hxm with rfl | hxm'
      · exact absurd hxe h
      · obtain ⟨pre, x', post, h1, h2, h3⟩ := ih ⟨x, hxm', hxe⟩
        refine ⟨y :: pre, x', post, by rw [h1]; rfl, h2, ?_⟩
        unfold mergeFirst
        rw [if_neg h, h3]
        rfl

/-- C3: starting from the empty set, any sequence of `add` operations
leaves the records strictly ascending by line number (so no two records
share a line number), and adding a record whose line number is already
present leaves the line numbers unchanged, appending the new messages to
the first record carrying that number. -/
theorem c3_diagnostic_set_invariant :
    (∀ ops : List cueSyntaxError, keysAsc (ops.foldl addRec [])) ∧
    (∀ (L : List cueSyntaxError) (r : cueSyntaxError),
      (∃ x ∈ L, x.line_num = r.line_num) →
      keysOf (addRec L r) = keysOf L ∧
      ∃ pre x post, L = pre ++ x :: post ∧ x.line_num = r.line_num ∧
        addRec L r =
          pre ++ (⟨x.line_num, x.line, x.message ++ r.message⟩ : cueSyntaxError) :: post) := by
  constructor
  · have inv : ∀ (ops : List cueSyntaxError) (L : List cueSyntaxError),
        keysAsc L → keysAsc (ops.foldl addRec L) := by
      intro ops
      induction ops with
      | nil => exact fun L h => h
      | cons r ops ih => exact fun L h => ih _ (addRec_keysAsc h)
    intro ops
    exact inv ops [] (by simp [keysAsc, keysOf])
  · intro L r hx
    have hany : L.any (fun x => x.line_num = r.line_num) = true := by
      obtain ⟨x, hxm, hxe⟩ := hx
      exact List.any_eq_true.mpr ⟨x, hxm, by simp [hxe]⟩
    constructor
    · unfold addRec
      rw [if_pos hany]
      exact keysOf_mergeFirst r L
    · obtain ⟨pre, x, post, h1, h2, h3⟩ := mergeFirst_spec r L hx
      refine ⟨pre, x, post, h1, h2, ?_⟩
      unfold addRec
      rw [if_pos hany]
      exact h3

/-- C3 witness: a concrete operation sequence stays sorted and a
duplicate line number merges instead of duplicating. -/
theorem c3_diagnostic_set_invariant_witness :
    keysAsc
      (([⟨3, "c", ["m3"]⟩, ⟨1, "a", ["m1"]⟩, ⟨1, "a", ["m1b"]⟩] :
          List cueSyntaxError).foldl addRec []) ∧
    keysOf (addRec [⟨1, "a", ["m"]⟩] ⟨1, "a", ["n"]⟩) =
      keysOf [(⟨1, "a", ["m"]⟩ : cueSyntaxError)] :=
  ⟨c3_diagnostic_set_invariant.1 [⟨3, "c", ["m3"]⟩, ⟨1, "a", ["m1"]⟩, ⟨1, "a", ["m1b"]⟩],
   (c3_diagnostic_set_invariant.2 [⟨1, "a", ["m"]⟩] ⟨1, "a", ["n"]⟩
     ⟨⟨1, "a", ["m"]⟩, by decide, rfl⟩).1⟩

/-- Creating a node opens a FILE pointer exactly when the node is a
FILE node (and otherwise leaves the pointer as it was). -/
theorem pointerUpd_file (k : Key) (ln : Nat) (st : BState) :
    (pointerUpd k ln st).curFile.isSome =
      (st.curFile.isSome || decide (k = Key.FILE)) := by
  unfold pointerUpd
  by_cases h : k = .FILE
  · simp [h]
  · by_cases h2 : k = .TRACK <;> simp [h, h2]

/-- Creating a node opens a TRACK pointer exactly when the node is a
TRACK node. -/
theorem pointerUpd_track (k : Key) (ln : Nat) (st : BState) :
    (pointerUpd k ln st).curTrack.isSome =
      (st.curTrack.isSome || decide (k = Key.TRACK)) := by
  unfold pointerUpd
  by_cases h : k = .FILE
  · simp [h]
  · by_cases h2 : k = .TRACK <;> simp [h, h2]

/-- The classifier loop raises the fatal parent error exactly when the
presence-only scan reports a missing open ancestor. -/
theorem build_scan (ls : List String) : ∀ (st : BState) (i : Nat),
    isErr (buildAux st i ls) = scanAux st.curFile.isSome st.curTrack.isSome ls := by
  induction ls with
  | nil => intro st i; rfl
  | cons l ls ih =>
    intro st i
    rw [buildAux, scanAux]
    unfold classifyStep
    cases hc : classifyLine l.data with
    | blank => exact ih _ _
    | notfound capBad => exact ih _ _
    | cmd k c capBad indBad =>
      rcases hcd : c / 2 with _ | _ | _ | d
      · simp only [hcd, ih _ _, pointerUpd_file, pointerUpd_track]
      · cases hf : st.curFile with
        | none => simp [hcd, hf, isErr]
        | some fln => simp [hcd, hf, ih _ _, pointerUpd_file, pointerUpd_track]
      · cases ht : st.curTrack with
        | none => simp [hcd, ht, isErr]
        | some tln => simp [hcd, ht, ih _ _, pointerUpd_file, pointerUpd_track]
      · simp [hcd, isErr]

/-- C4: the run raises the fatal whole-file error exactly when the
extension test fails, the document file is missing, its content is
undecodable, or some line's required open ancestor is missing during
tree building; in every other case (the empty-document crash aside,
which raises no `cuecheckError` either) all remaining violations are
accumulated and the run returns the diagnostic sets, so at most one
fatal abort happens per run. -/
theorem c4_fatal_characterisation (fs : String → Bool) (extOk fe de : Bool)
    (lines : List String) :
    (cuecheckModel fs extOk fe de lines).isFatal = true ↔
      (extOk = false ∨ fe = false ∨ de = false ∨ parentFailure lines = true) := by
  unfold cuecheckModel
  cases extOk
  · simp [Outcome.isFatal]
  · cases fe
    · simp [Outcome.isFatal]
    · cases de
      · simp [Outcome.isFatal]
      · simp only [Bool.not_true, Bool.false_eq_true, if_false]
        cases lines with
        | nil => simp [Outcome.isFatal, parentFailure]
        | cons l0 rest =>
          unfold parentFailure
          have hb := (build_scan (stripBOM l0 :: rest) initState 0).symm
          cases hbuild : buildAux initState 0 (stripBOM l0 :: rest) with
          | error e =>
            rw [hbuild] at hb
            simp only [isErr, initState, Option.isSome_none] at hb
            simp [hbuild, Outcome.isFatal, hb]
          | ok st =>
            rw [hbuild] at hb
            simp only [isErr, initState, Option.isSome_none] at hb
            simp [hbuild, Outcome.isFatal, hb, runChecks]

/-- A successful prefix strip decomposes the list. -/
theorem stripPref_eq : ∀ {p l r : List Char}, stripPref p l = some r → l = p ++ r := by
  intro p
  induction p with
  | nil => intro l r h; cases h; rfl
  | cons x xs ih =>
    intro l r h
    cases l with
    | nil => cases h
    | cons c cs =>
      unfold stripPref at h
      by_cases hxc : x = c
      · rw [if_pos hxc] at h
        rw [List.cons_append, ← ih h, hxc]
      · rw [if_neg hxc] at h
        cases h

/-- A successful rule match forces the line to start with the coerced
indent as spaces, the keyword literal, and the space after it. -/
theorem matchCmd_some_shape {k : Key} {c : Nat} {l : List Char} {d : MData}
    (h : matchCmd k c l = some d) :
    ∃ rest, l = List.replicate c ' ' ++ ((keyStr k).data ++ ' ' :: rest) := by
  unfold matchCmd at h
  cases hs : stripPref (List.replicate c ' ' ++ (keyStr k).data ++ [' ']) l with
  | none => rw [hs] at h; cases h
  | some rest =>
    refine ⟨rest, ?_⟩
    have := stripPref_eq hs
    rw [this]
    simp

/-- Leading spaces of a spaces-then-nonspace list. -/
theorem getSpace_replicate_cons (x : Char) (xs : List Char) (hx : x ≠ ' ') :
    ∀ c, getSpace (List.replicate c ' ' ++ x :: xs) = c := by
  intro c
  induction c with
  | zero => simp [getSpace, hx]
  | succ c ih => simp [List.replicate_succ, getSpace, ih]

/-- `pySplit` ignores leading spaces. -/
theorem pySplitAux_replicate (l : List Char) :
    ∀ c, pySplitAux (List.replicate c ' ' ++ l) [] = pySplitAux l [] := by
  intro c
  induction c with
  | zero => rfl
  | succ c ih => simpa [List.replicate_succ, pySplitAux, isPySpace] using ih

/-- `pySplit` closes the running token at the first space. -/
theorem pySplitAux_token (r : List Char) :
    ∀ (w : List Char) (acc : List Char),
      w.all (fun ch => !isPySpace ch) = true → acc.reverse ++ w ≠ [] →
      pySplitAux (w ++ ' ' :: r) acc = (acc.reverse ++ w) :: pySplitAux r [] := by
  intro w
  induction w with
  | nil =>
    intro acc hall hne
    have hacc : acc ≠ [] := by
      intro h0
      exact hne (by simp [h0])
    simp [pySplitAux, isPySpace, hacc]
  | cons a w ih =>
    intro acc hall hne
    have ha : isPySpace a = false := by
      simp only [List.all_cons, Bool.and_eq_true] at hall
      simpa using hall.1
    have step : pySplitAux ((a :: w) ++ ' ' :: r) acc =
        pySplitAux (w ++ ' ' :: r) (a :: acc) := by
      simp [pySplitAux, ha]
    rw [step, ih (a :: acc)
      (by simp only [List.all_cons, Bool.and_eq_true] at hall; exact hall.2)
      (by simp)]
    simp

/-- The first token of an indented keyword line is the keyword. -/
theorem firstTok_prefix (c : Nat) (w r : List Char) (hw : w ≠ [])
    (hall : w.all (fun ch => !isPySpace ch) = true) :
    firstTok (List.replicate c ' ' ++ (w ++ ' ' :: r)) = w := by
  unfold firstTok pySplit
  rw [pySplitAux_replicate, pySplitAux_token r w [] hall (by simpa using hw)]
  simp

/-- Each keyword literal is non-empty, space-free and fully
upper-case. -/
theorem keyStr_facts (k : Key) :
    (keyStr k).data ≠ [] ∧ ((keyStr k).data).all (fun ch => !isPySpace ch) = true ∧
      pyIsUpper (keyStr k).data = true := by
  cases k <;> exact ⟨by decide, by decide, by decide⟩

/-- A classified command line carries a permitted depth (its own, or the
coerced one). -/
theorem classifyLine_indent {l : List Char} {k : Key} {c : Nat} {cb ib : Bool}
    (h : classifyLine l = .cmd k c cb ib) : c ∈ indentsOf k := by
  unfold classifyLine at h
  cases hsp : pySplit l with
  | nil => rw [hsp] at h; cases h
  | cons t0 ts =>
    rw [hsp] at h
    simp only at h
    cases hko : keyOfTok (pyToUpper t0) with
    | none => rw [hko] at h; cases h
    | some k0 =>
      rw [hko] at h
      simp only at h
      by_cases hg : getSpace l ∈ indentsOf k0
      · rw [if_pos hg] at h
        cases h
        exact hg
      · rw [if_neg hg] at h
        cases h
        exact coerceIndent_mem k

/-- Node creation does not touch the forest pointers' forest. -/
theorem pointerUpd_forest (k : Key) (ln : Nat) (st : BState) :
    (pointerUpd k ln st).forest = st.forest := by
  unfold pointerUpd
  by_cases h : k = .FILE
  · simp [h]
  · by_cases h2 : k = .TRACK <;> simp [h, h2]

/-- Appending a top-level node adds exactly its subtree. -/
theorem forestNodes_append (F : List TopT) (t : TopT) :
    forestNodes (F ++ [t]) = forestNodes F ++ subtreeTop t := by
  simp [forestNodes]

/-- Membership after appending to the open FILE node. -/
theorem mem_appendToFile {x : Node} {fln : Nat} {t : TrackT} {F : List TopT}
    (h : x ∈ forestNodes (appendToFile fln t F)) :
    x ∈ forestNodes F ∨ x ∈ subtreeTr t := by
  unfold forestNodes appendToFile at h
  rcases List.mem_flatMap.mp h with ⟨f', hf', hx⟩
  rcases List.mem_map.mp hf' with ⟨f, hf, rfl⟩
  by_cases hm : f.node.linenum = fln
  · rw [if_pos hm] at hx
    unfold subtreeTop at hx
    rcases List.mem_cons.mp hx with rfl | hx'
    · exact Or.inl (List.mem_flatMap.mpr ⟨f, hf, List.mem_cons_self _ _⟩)
    · simp only [List.flatMap_append] at hx'
      rcases List.mem_append.mp hx' with hx2 | hx2
      · exact Or.inl (List.mem_flatMap.mpr ⟨f, hf,
          List.mem_cons_of_mem _ hx2⟩)
      · simp only [List.flatMap_cons, List.flatMap_nil, List.append_nil] at hx2
        exact Or.inr hx2
  · rw [if_neg hm] at hx
    exact Or.inl (List.mem_flatMap.mpr ⟨f, hf, hx⟩)

/-- Membership after appending to the open TRACK node. -/
theorem mem_appendToTrack {x : Node} {tln : Nat} {nd : Node} {F : List TopT}
    (h : x ∈ forestNodes (appendToTrack tln nd F)) :
    x ∈ forestNodes F ∨ x = nd := by
  unfold forestNodes appendToTrack at h
  rcases List.mem_flatMap.mp h with ⟨f', hf', hx⟩
  rcases List.mem_map.mp hf' with ⟨f, hf, rfl⟩
  unfold subtreeTop at hx
  rcases List.mem_cons.mp hx with rfl | hx'
  · exact Or.inl (List.mem_flatMap.mpr ⟨f, hf, List.mem_cons_self _ _⟩)
  · rcases List.mem_flatMap.mp hx' with ⟨tr', htr', hx2⟩
    rcases List.mem_map.mp htr' with ⟨tr, htr, rfl⟩
    by_cases hm : tr.node.linenum = tln
    · rw [if_pos hm] at hx2
      unfold subtreeTr at hx2
      simp only at hx2
      rcases List.mem_cons.mp hx2 with rfl | hx3
      · refine Or.inl (List.mem_flatMap.mpr ⟨f, hf, List.mem_cons_of_mem _ ?_⟩)
        exact List.mem_flatMap.mpr ⟨tr, htr, List.mem_cons_self _ _⟩
      · rcases List.mem_append.mp hx3 with hx4 | hx4
        · refine Or.inl (List.mem_flatMap.mpr ⟨f, hf, List.mem_cons_of_mem _ ?_⟩)
          exact List.mem_flatMap.mpr ⟨tr, htr, List.mem_cons_of_mem _ hx4⟩
        · exact Or.inr (List.mem_singleton.mp hx4)
    · rw [if_neg hm] at hx2
      refine Or.inl (List.mem_flatMap.mpr ⟨f, hf, List.mem_cons_of_mem _ ?_⟩)
      exact List.mem_flatMap.mpr ⟨tr, htr, hx2⟩

/-- Every node the classifier creates satisfies `NodeOK`: its fields are
still at their sentinels and its depth is one of its keyword's permitted
depths. -/
theorem build_preserves (ls : List String) : ∀ (st : BState) (i : Nat) (st' : BState),
    (∀ n ∈ forestNodes st.forest, NodeOK n) →
    buildAux st i ls = .ok st' →
    ∀ n ∈ forestNodes st'.forest, NodeOK n := by
  induction ls with
  | nil =>
    intro st i st' hinv h
    rw [buildAux] at h
    cases h
    exact hinv
  | cons l ls ih =>
    intro st i st' hinv h
    rw [buildAux] at h
    cases hcs : classifyStep st i l with
    | error e => rw [hcs] at h; cases h
    | ok st1 =>
      rw [hcs] at h
      refine ih st1 (i + 1) st' ?_ h
      unfold classifyStep at hcs
      cases hc : classifyLine l.data with
      | blank =>
        rw [hc] at hcs
        simp only [] at hcs
        cases hcs
        exact hinv
      | notfound capBad =>
        rw [hc] at hcs
        simp only [] at hcs
        cases hcs
        exact hinv
      | cmd k c capBad indBad =>
        rw [hc] at hcs
        simp only [] at hcs
        have hcok : c ∈ indentsOf k := classifyLine_indent hc
        have hnd : NodeOK ⟨i + 1, some k, l, c, {}⟩ := by
          refine ⟨rfl, ?_⟩
          intro k0 hk0
          cases hk0
          exact hcok
        rcases hcd : c / 2 with _ | _ | _ | d
        · rw [hcd] at hcs
          simp only [] at hcs
          cases hcs
          intro n hn
          rw [pointerUpd_forest, forestNodes_append] at hn
          rcases List.mem_append.mp hn with hn1 | hn1
          · exact hinv n hn1
          · rcases List.mem_cons.mp hn1 with rfl | hn2
            · exact hnd
            · simp at hn2
        · rw [hcd] at hcs
          simp only [] at hcs
          cases hf : st.curFile with
          | none => rw [hf] at hcs; cases hcs
          | some fln =>
            rw [hf] at hcs
            simp only [] at hcs
            cases hcs
            intro n hn
            rw [pointerUpd_forest] at hn
            rcases mem_appendToFile hn with hn1 | hn1
            · exact hinv n hn1
            · rcases List.mem_cons.mp hn1 with rfl | hn2
              · exact hnd
              · simp at hn2
        · rw [hcd] at hcs
          simp only [] at hcs
          cases ht : st.curTrack with
          | none => rw [ht] at hcs; cases hcs
          | some tln =>
            rw [ht] at hcs
            simp only [] at hcs
            cases hcs
            intro n hn
            rw [pointerUpd_forest] at hn
            rcases mem_appendToTrack hn with hn1 | rfl
            · exact hinv n hn1
            · exact hnd
        · rw [hcd] at hcs
          cases hcs

/-- C10: a node whose measured leading-space count was coerced (it is
not a permitted depth of its keyword), or whose keyword token was not
fully upper-case in the source, can never match its rule — the rule is
matched against the verbatim line prefixed by the coerced depth and the
upper-case keyword literal — so the syntax pass records "command syntax
error" for its line and its fields remain at the sentinels. -/
theorem c10_coerced_or_lowercase_fails (fs : String → Bool)
    (lines : List String) (st' : BState) (n : Node) (k : Key)
    (hb : buildAux initState 0 lines = .ok st')
    (hn : n ∈ forestNodes st'.forest) (hk : n.key = some k)
    (hbad : getSpace n.line.data ∉ indentsOf k ∨
      pyIsUpper (firstTok n.line.data) = false) :
    matchCmd k n.indent n.line.data = none ∧
    synOwn fs n = (n, [errEvt n.linenum n.line "command syntax error"]) ∧
    n.fields = {} := by
  have hok := build_preserves lines initState 0 st'
    (by intro n hn0; simp [initState, forestNodes] at hn0) hb n hn
  have hfield := hok.1
  have hind := hok.2 k hk
  have hnone : matchCmd k n.indent n.line.data = none := by
    cases hm : matchCmd k n.indent n.line.data with
    | none => rfl
    | some d =>
      exfalso
      obtain ⟨rest, hl⟩ := matchCmd_some_shape hm
      obtain ⟨hke, hkall, hkup⟩ := keyStr_facts k
      cases hkd : (keyStr k).data with
      | nil => exact hke hkd
      | cons kc krest =>
        rw [hkd] at hl hkall hkup
        have hkc : kc ≠ ' ' := by
          simp only [List.all_cons, Bool.and_eq_true] at hkall
          intro h0
          rw [h0] at hkall
          simpa [isPySpace] using hkall.1
        have hg : getSpace n.line.data = n.indent := by
          rw [hl, List.cons_append]
          exact getSpace_replicate_cons kc (krest ++ ' ' :: rest) hkc n.indent
        have hft : firstTok n.line.data = kc :: krest := by
          rw [hl]
          exact firstTok_prefix n.indent (kc :: krest) rest (by simp) hkall
        rcases hbad with hb1 | hb2
        · exact hb1 (hg ▸ hind)
        · rw [hft, hkup] at hb2
          cases hb2
  refine ⟨hnone, ?_, hfield⟩
  unfold synOwn
  simp only [hk, hnone]

/-- C10 witness: a CATALOG line with one leading space (not a permitted
depth) is a concrete coerced node that fails syntax validation. -/
theorem c10_coerced_or_lowercase_fails_witness :
    matchCmd .CATALOG 0 (" CATALOG 1234567890123" : String).data = none ∧
    synOwn fsAll
        ⟨1, some .CATALOG, " CATALOG 1234567890123", 0, {}⟩ =
      (⟨1, some .CATALOG, " CATALOG 1234567890123", 0, {}⟩,
        [errEvt 1 " CATALOG 1234567890123" "command syntax error"]) ∧
    (⟨1, some .CATALOG, " CATALOG 1234567890123", 0, {}⟩ : Node).fields = {} :=
  c10_coerced_or_lowercase_fails fsAll [" CATALOG 1234567890123"]
    ⟨[⟨⟨1, some .CATALOG, " CATALOG 1234567890123", 0, {}⟩, []⟩], none, none,
      [⟨1, " CATALOG 1234567890123", ["indent error"]⟩]⟩
    ⟨1, some .CATALOG, " CATALOG 1234567890123", 0, {}⟩ .CATALOG
    rfl (by decide) rfl (Or.inl (by decide))

end Cue
